import Mathlib

/-!
Verification of the CRM opportunity transformation-and-quality-check pipeline
(`src/devin_etl/transformations.py`, `src/devin_etl/utils.py`, `src/quality_checks.py`).

Modelling conventions:
* Tabular data loaded by `load_csv` is string-typed (`dtype=str, keep_default_na=False`),
  so every cell of a present column is a `String` ("" for a blank cell), except the
  columns passed through `parse_dt`, which become timestamps or `NaT`;
  those are modelled as `Option Int` (`none` = `NaT`, the integer is a timestamp
  at day resolution — only ordering and day differences are used by the code).
* Python `float(...)` on the decimal literals occurring in this data is modelled by
  `pyFloat : String → Option ℚ` (`none` = the call raises `ValueError`); floats are
  modelled as exact rationals ("nan"/"inf" literals and rounding are out of scope).
* Code that can raise on row data returns `Except Unit`, `Except.error ()` marking a
  raised Python exception.
* `str.strip` / `str.lower` / `str.upper` are modelled on the ASCII range by
  `pyStrip` / `pyLower` / `pyUpper`.
* SHA-256 (`hashlib.sha256(...).hexdigest()`) is implemented in full as `sha256hex`.
* `pandas` sorts are modelled by `List.insertionSort` with the corresponding key
  order; `NaT` sorts last (`sort_values` default `na_position="last"`).
  The claims proved below do not depend on the order of key-equal rows.
* A column built by `apply` from float-or-`None` results keeps Python `None`
  (falsy) only when every result is `None`; as soon as one result is a number,
  pandas infers a float64 column and stores the nulls as `NaN`, which is TRUTHY,
  so `cell or 0.0` returns `NaN` and `NaN` propagates through arithmetic. Row
  fields stay `Option ℚ` (both null flavours are `pd.isna`), and the places
  where the `None`/`NaN` distinction is observable (`(x or 0.0)` in
  `compute_metrics`) take the column-level has-a-number flag explicitly
  (`orZero`); a `none` result of `expected_revenue_usd` is a `NaN` cell.
-/

/-! ## Python string primitives -/

/-- Python `str.strip` whitespace set: space, \t, \n, \r, \v, \f. -/
def isPyWS (c : Char) : Bool :=
  decide (c.toNat = 32 ∨ c.toNat = 9 ∨ c.toNat = 10 ∨ c.toNat = 13 ∨
    c.toNat = 11 ∨ c.toNat = 12)

/-- Python `str.strip()`: drop leading and trailing whitespace. -/
def pyStrip (s : String) : String :=
  ⟨(((s.data.dropWhile isPyWS).reverse).dropWhile isPyWS).reverse⟩

/-- Python `str.lower` on one character (ASCII range). -/
def lowerChar (c : Char) : Char :=
  if 65 ≤ c.toNat ∧ c.toNat ≤ 90 then Char.ofNat (c.toNat + 32) else c

/-- Python `str.lower` (ASCII range). -/
def pyLower (s : String) : String := ⟨s.data.map lowerChar⟩

/-- Python `str.upper` on one character (ASCII range). -/
def upperChar (c : Char) : Char :=
  if 97 ≤ c.toNat ∧ c.toNat ≤ 122 then Char.ofNat (c.toNat - 32) else c

/-- Python `str.upper` (ASCII range). -/
def pyUpper (s : String) : String := ⟨s.data.map upperChar⟩

/-- Value of a list of decimal digit characters. -/
def digitsVal (l : List Char) : Nat := l.foldl (fun a c => a * 10 + (c.toNat - 48)) 0

/-- Python `float(s)` on a decimal string: optional sign, integer part, optional
fractional part. `none` models the `ValueError` raised on anything else. -/
def pyFloat (s : String) : Option ℚ :=
  let t := (pyStrip s).data
  let sgn : ℚ := match t with
    | '-' :: _ => -1
    | _ => 1
  let u := match t with
    | '-' :: r => r
    | '+' :: r => r
    | r => r
  let ip := u.takeWhile Char.isDigit
  let rest := u.dropWhile Char.isDigit
  match rest with
  | [] => if ip.isEmpty then none else some (sgn * (digitsVal ip : ℚ))
  | '.' :: fr =>
    if fr.all Char.isDigit && !(ip.isEmpty && fr.isEmpty) then
      some (sgn * ((digitsVal ip : ℚ) + (digitsVal fr : ℚ) / ((10 : ℚ) ^ fr.length)))
    else none
  | _ => none

/-- `utils.safe_float`: `float(x)` with every exception caught to `None`. -/
def safe_float (s : String) : Option ℚ := pyFloat s

/-! ## SHA-256 (`hashlib.sha256(...).hexdigest()`) -/

/-- Truncation to a 32-bit word. -/
def w32 (n : Nat) : Nat := n % 4294967296

/-- Right rotation of a 32-bit word. -/
def rotr32 (x n : Nat) : Nat := (x >>> n) + (x % 2 ^ n) * 2 ^ (32 - n)

/-- The 64 SHA-256 round constants (the fractional parts of the cube roots of
the first 64 primes, scaled to 32 bits; written in decimal). -/
def sha256K : List Nat :=
  [1116352408, 1899447441, 3049323471, 3921009573,
   961987163, 1508970993, 2453635748, 2870763221,
   3624381080, 310598401, 607225278, 1426881987,
   1925078388, 2162078206, 2614888103, 3248222580,
   3835390401, 4022224774, 264347078, 604807628,
   770255983, 1249150122, 1555081692, 1996064986,
   2554220882, 2821834349, 2952996808, 3210313671,
   3336571891, 3584528711, 113926993, 338241895,
   666307205, 773529912, 1294757372, 1396182291,
   1695183700, 1986661051, 2177026350, 2456956037,
   2730485921, 2820302411, 3259730800, 3345764771,
   3516065817, 3600352804, 4094571909, 275423344,
   430227734, 506948616, 659060556, 883997877,
   958139571, 1322822218, 1537002063, 1747873779,
   1955562222, 2024104815, 2227730452, 2361852424,
   2428436474, 2756734187, 3204031479, 3329325298]

/-- SHA-256 working state: eight 32-bit words. -/
abbrev H8 := Nat × Nat × Nat × Nat × Nat × Nat × Nat × Nat

/-- SHA-256 initial hash values (the fractional parts of the square roots of
the first 8 primes, scaled to 32 bits; written in decimal). -/
def sha256IV : H8 :=
  (1779033703, 3144134277, 1013904242, 2773480762,
   1359893119, 2600822924, 528734635, 1541459225)

/-- SHA-256 message padding to a multiple of 64 bytes. -/
def sha256pad (msg : List Nat) : List Nat :=
  let len := msg.length
  let z := (120 - (len + 1) % 64) % 64
  let bits := 8 * len
  msg ++ [128] ++ List.replicate z 0 ++
    [(bits >>> 56) % 256, (bits >>> 48) % 256, (bits >>> 40) % 256, (bits >>> 32) % 256,
     (bits >>> 24) % 256, (bits >>> 16) % 256, (bits >>> 8) % 256, bits % 256]

/-- Group bytes into big-endian 32-bit words. -/
def toWords32 : List Nat → List Nat
  | b0 :: b1 :: b2 :: b3 :: rest =>
    (b0 * 16777216 + b1 * 65536 + b2 * 256 + b3) :: toWords32 rest
  | _ => []

/-- Group words into 16-word blocks. -/
def toBlocks : List Nat → List (List Nat)
  | a0 :: a1 :: a2 :: a3 :: a4 :: a5 :: a6 :: a7 ::
    a8 :: a9 :: a10 :: a11 :: a12 :: a13 :: a14 :: a15 :: rest =>
    [a0, a1, a2, a3, a4, a5, a6, a7, a8, a9, a10, a11, a12, a13, a14, a15] :: toBlocks rest
  | _ => []

/-- Extend a 16-word block to the 64-word message schedule. -/
def extendW (w16 : List Nat) : List Nat :=
  let f := fun (p : List Nat × List Nat) (_ : Nat) =>
    let win := p.1
    let w0 := win.getD 0 0
    let w1 := win.getD 1 0
    let w9 := win.getD 9 0
    let w14 := win.getD 14 0
    let s0 := rotr32 w1 7 ^^^ rotr32 w1 18 ^^^ (w1 >>> 3)
    let s1 := rotr32 w14 17 ^^^ rotr32 w14 19 ^^^ (w14 >>> 10)
    let nw := w32 (w0 + s0 + w9 + s1)
    (win.drop 1 ++ [nw], p.2 ++ [nw])
  ((List.range 48).foldl f (w16, w16)).2

/-- One SHA-256 round. -/
def sha256Round (st : H8) (kw : Nat × Nat) : H8 :=
  let (a, b, c, d, e, f, g, h) := st
  let s1 := rotr32 e 6 ^^^ rotr32 e 11 ^^^ rotr32 e 25
  let ch := (e &&& f) ^^^ ((4294967295 - e) &&& g)
  let t1 := w32 (h + s1 + ch + kw.1 + kw.2)
  let s0 := rotr32 a 2 ^^^ rotr32 a 13 ^^^ rotr32 a 22
  let mj := (a &&& b) ^^^ (a &&& c) ^^^ (b &&& c)
  let t2 := w32 (s0 + mj)
  (w32 (t1 + t2), a, b, c, w32 (d + t1), e, f, g)

/-- SHA-256 compression of one block. -/
def sha256Compress (st : H8) (block : List Nat) : H8 :=
  let (a0, b0, c0, d0, e0, f0, g0, h0) := st
  let (a, b, c, d, e, f, g, h) := (sha256K.zip (extendW block)).foldl sha256Round st
  (w32 (a0 + a), w32 (b0 + b), w32 (c0 + c), w32 (d0 + d),
   w32 (e0 + e), w32 (f0 + f), w32 (g0 + g), w32 (h0 + h))

/-- SHA-256 of a byte sequence, as the final eight-word state. -/
def sha256state (msg : List Nat) : H8 :=
  (toBlocks (toWords32 (sha256pad msg))).foldl sha256Compress sha256IV

/-- UTF-8 encoding of one character. -/
def utf8Char (c : Char) : List Nat :=
  let n := c.toNat
  if n < 128 then [n]
  else if n < 2048 then [192 + n / 64, 128 + n % 64]
  else if n < 65536 then [224 + n / 4096, 128 + (n / 64) % 64, 128 + n % 64]
  else [240 + n / 262144, 128 + (n / 4096) % 64, 128 + (n / 64) % 64, 128 + n % 64]

/-- UTF-8 encoding of a string (Python `str.encode("utf-8")`). -/
def utf8Bytes (s : String) : List Nat := s.data.foldr (fun c acc => utf8Char c ++ acc) []

/-- Lower-case hex digit. -/
def hexDigit (d : Nat) : Char := Char.ofNat (if d < 10 then 48 + d else 87 + d)

/-- Eight hex digits of a 32-bit word, most significant first. -/
def wordHex (n : Nat) : List Char := (List.range 8).map (fun k => hexDigit (n / 16 ^ (7 - k) % 16))

/-- `hashlib.sha256(s.encode("utf-8")).hexdigest()`. -/
def sha256hex (s : String) : String :=
  let st := sha256state (utf8Bytes s)
  String.mk (wordHex st.1 ++ wordHex st.2.1 ++ wordHex st.2.2.1 ++ wordHex st.2.2.2.1 ++
    wordHex st.2.2.2.2.1 ++ wordHex st.2.2.2.2.2.1 ++ wordHex st.2.2.2.2.2.2.1 ++
    wordHex st.2.2.2.2.2.2.2)

/-- Self-check against the FIPS 180-2 test vector for "abc". -/
theorem sha256hex_fips_vector :
    sha256hex "abc" = "ba7816bf8f01cfea414140de5dae2223b00361a396177a9cb410ff61f20015ad" := by
  decide

/-! ## `utils.py` PII helpers -/

/-- `utils.hash_email`: `None` for a null/blank email, otherwise the SHA-256 hex
digest of the lower-cased (NOT stripped) email. The `OwnerEmail` column is always
a string after `load_csv`, so the `email is None` guard never fires. -/
def hash_email (email : String) : Option String :=
  if pyStrip email = "" then none
  else some (sha256hex (pyLower email))

/-- `utils.normalize_phone`. `re.sub(r"\D+", "", ...)` keeps exactly the digit
characters; the `phone is None` guard never fires on the string-typed column. -/
def normalize_phone (phone : String) : Option String :=
  if pyStrip phone = "" then none
  else
    let ds0 := phone.data.filter Char.isDigit
    let ds := if ds0.take 1 = ['1'] ∧ ds0.length = 11 then ds0.drop 1 else ds0
    if ds.length = 10 then some ("+1" ++ ⟨ds⟩)
    else if 11 ≤ ds.length ∧ ds.take 2 = ['0', '0'] then some ("+" ++ ⟨ds.drop 2⟩)
    else if 11 ≤ ds.length ∧ ds.take 3 = ['0', '1', '1'] then some ("+" ++ ⟨ds.drop 3⟩)
    else if 11 ≤ ds.length ∧ ds.take 1 = ['1'] then some ("+" ++ ⟨ds⟩)
    else if 11 ≤ ds.length then some ("+" ++ ⟨ds⟩)
    else none

/-! ## Order relations used by the pandas sorts -/

/-- Ascending timestamp order with `NaT` last (`sort_values` default
`na_position="last"`). -/
def tsLE : Option Int → Option Int → Bool
  | _, none => true
  | none, some _ => false
  | some a, some b => a ≤ b

/-- Descending rate-date order (`sort_values("rate_date", ascending=False)`). -/
def dateGE (a b : Int) : Bool := b ≤ a

theorem tsLE_total (x y : Option Int) : tsLE x y = true ∨ tsLE y x = true := by
  cases x <;> cases y <;> simp [tsLE] <;> omega

theorem tsLE_trans {x y z : Option Int} (h1 : tsLE x y = true) (h2 : tsLE y z = true) :
    tsLE x z = true := by
  cases x <;> cases y <;> cases z <;> simp_all [tsLE] <;> omega

/-! ## Data model: rows of the tabular inputs and of each stage's output -/

/-- An opportunity row as produced by `load_csv(..., parse_dates=["CloseDate",
"CreatedDate","LastModifiedDate"])`: all required columns string-typed except the
three parsed date columns. -/
structure OppRow where
  Id : String
  AccountId : String
  Name : String
  StageName : String
  Amount : String
  CurrencyIsoCode : String
  Probability : String
  CloseDate : Option Int
  CreatedDate : Option Int
  LastModifiedDate : Option Int
  OwnerEmail : String
  Phone : String
  IsWon : String
  IsClosed : String
deriving DecidableEq, Repr

/-- An account row (`Id`, `Name`, `Industry`, `OwnerId`), string-typed. -/
structure AcctRow where
  Id : String
  Name : String
  Industry : String
  OwnerId : String
deriving DecidableEq, Repr

/-- An FX-rate row after `apply_fx` has parsed `rate_date`
(`pd.to_datetime(fx["rate_date"])`); the positive rate is modelled as a rational. -/
structure FxRate where
  currency : String
  rate_date : Int
  rate_to_usd : ℚ
deriving DecidableEq, Repr

/-- A stage-mapping row (`source_stage`, `std_stage`), string-typed. -/
structure StageMapRow where
  source_stage : String
  std_stage : String
deriving DecidableEq, Repr

/-- Output row of `normalize_stages`: the left merge adds `StageStd`
(null when the raw stage has no mapping entry). -/
structure StagedRow where
  base : OppRow
  StageStd : Option String
deriving DecidableEq, Repr

/-- Output row of `enrich_accounts`: the left merge adds the account fields
(null when the referenced account is missing). -/
structure EnrichedRow where
  base : StagedRow
  AccountName : Option String
  AccountIndustry : Option String
  OwnerId : Option String
deriving DecidableEq, Repr

/-- Output row of `apply_fx`: adds `fx_rate_used` and `AmountUSD`. -/
structure FxAppliedRow where
  base : EnrichedRow
  fx_rate_used : Option ℚ
  AmountUSD : Option ℚ
deriving DecidableEq, Repr

/-- Output row of `compute_metrics`: `Amount` and `Probability` are now parsed
(`safe_float`), and the derived metric columns are added. -/
structure MetricRow where
  Id : String
  AccountId : String
  Name : String
  StageName : String
  StageStd : Option String
  AccountName : Option String
  AccountIndustry : Option String
  OwnerId : Option String
  Amount : Option ℚ
  CurrencyIsoCode : String
  Probability : Option ℚ
  CloseDate : Option Int
  CreatedDate : Option Int
  LastModifiedDate : Option Int
  OwnerEmail : String
  Phone : String
  IsWon : String
  IsClosed : String
  fx_rate_used : Option ℚ
  AmountUSD : Option ℚ
  expected_revenue_usd : Option ℚ
  sales_cycle_days : Option Int
  is_won : Bool
  is_lost : Bool
deriving DecidableEq, Repr

/-- Output row of `sanitize_pii`: adds the hashed email and normalized phone.
This is the enriched record set handed to `anomaly_rules`. -/
structure FullRow where
  base : MetricRow
  owner_email_hash : Option String
  phone_normalized : Option String
deriving DecidableEq, Repr

/-- A row of the canonical output of `canonical_select`. -/
structure CanonRow where
  Id : String
  AccountId : String
  AccountName : Option String
  AccountIndustry : Option String
  Name : String
  StageName : String
  StageStd : Option String
  Amount : Option ℚ
  CurrencyIsoCode : String
  AmountUSD : Option ℚ
  expected_revenue_usd : Option ℚ
  Probability : Option ℚ
  CloseDate : Option Int
  CreatedDate : Option Int
  LastModifiedDate : Option Int
  sales_cycle_days : Option Int
  owner_email_hash : Option String
  phone_normalized : Option String
  is_won : Bool
  is_lost : Bool
deriving DecidableEq, Repr

/-- An anomaly row emitted by `anomaly_rules`. -/
structure Anomaly where
  opportunity_id : String
  code : String
  detail : String
deriving DecidableEq, Repr

/-- A loaded table: the set of columns present in the CSV, plus its typed rows. -/
structure Table (ρ : Type) where
  cols : List String
  rows : List ρ

/-! ## `transformations.py` stages -/

/-- Sort key order used by `dedupe_latest`: ascending parsed `LastModifiedDate`. -/
def dedupeLE (a b : OppRow) : Prop := tsLE a.LastModifiedDate b.LastModifiedDate = true

instance : DecidableRel dedupeLE := fun a b => instDecidableEqBool _ _

instance : IsTotal OppRow dedupeLE := ⟨fun a b => tsLE_total _ _⟩

instance : IsTrans OppRow dedupeLE := ⟨fun _ _ _ => tsLE_trans⟩

/-- `drop_duplicates(subset=[id_col], keep="last")`: keep a row iff no later row
has the same identifier. -/
def keepLastById : List OppRow → List OppRow
  | [] => []
  | r :: rest =>
    if rest.any (fun s => s.Id == r.Id) then keepLastById rest
    else r :: keepLastById rest

/-- `transformations.dedupe_latest`: re-parse the timestamp column (the identity
on already-parsed values), sort by it ascending (`NaT` last), keep the last row
per `Id`. -/
def dedupe_latest (rows : List OppRow) : List OppRow :=
  keepLastById (List.insertionSort dedupeLE rows)

/-- `transformations.normalize_stages`: left merge with the renamed stage map on
`StageName`; each matching map row produces one output row, no match yields a
null `StageStd`. -/
def normalize_stages (opp : List OppRow) (stage_map : List StageMapRow) : List StagedRow :=
  opp.flatMap (fun r =>
    let ms := stage_map.filter (fun m => m.source_stage == r.StageName)
    match ms with
    | [] => [⟨r, none⟩]
    | _ => ms.map (fun m => ⟨r, some m.std_stage⟩))

/-- `transformations.enrich_accounts`: left merge with the renamed account table
on `AccountId`. -/
def enrich_accounts (opp : List StagedRow) (accts : List AcctRow) : List EnrichedRow :=
  opp.flatMap (fun r =>
    let ms := accts.filter (fun a => a.Id == r.base.AccountId)
    match ms with
    | [] => [⟨r, none, none, none⟩]
    | _ => ms.map (fun a => ⟨r, some a.Name, some a.Industry, some a.OwnerId⟩))

/-- Descending rate-date order on FX rows. -/
def fxDesc (a b : FxRate) : Prop := dateGE a.rate_date b.rate_date = true

instance : DecidableRel fxDesc := fun a b => instDecidableEqBool _ _

instance : IsTotal FxRate fxDesc := ⟨fun a b => by
  simp only [fxDesc, dateGE, decide_eq_true_eq]; omega⟩

instance : IsTrans FxRate fxDesc := ⟨fun a b c h1 h2 => by
  simp only [fxDesc, dateGE, decide_eq_true_eq] at *; omega⟩

/-- `utils.closest_prior_or_same_rate`: null close date or blank currency gives
`None`; otherwise filter to the (upper-cased) currency, take the latest row with
`rate_date ≤` the close date, falling back to the latest-dated row overall. -/
def closest_prior_or_same_rate (fx : List FxRate) (currency : String) (asof : Option Int) :
    Option ℚ :=
  match asof with
  | none => none
  | some d =>
    if currency = "" then none
    else
      let cur := pyUpper currency
      let sub := fx.filter (fun r => r.currency == cur)
      if sub.isEmpty then none
      else
        match List.insertionSort fxDesc (sub.filter (fun r => r.rate_date ≤ d)) with
        | r :: _ => some r.rate_to_usd
        | [] =>
          match List.insertionSort fxDesc sub with
          | r :: _ => some r.rate_to_usd
          | [] => none

/-- The `to_usd` closure inside `apply_fx`. `pd.isna(amount)` is always `False`
on the string-typed `Amount` column, so the first guard never fires; a rate of
`None` returns `None` before `float(amount)` is reached; otherwise `float(amount)`
raises `ValueError` on a non-numeric string (modelled as `Except.error ()`). -/
def to_usd (amount : String) (rate : Option ℚ) : Except Unit (Option ℚ) :=
  match rate with
  | none => Except.ok none
  | some r =>
    match pyFloat amount with
    | some a => Except.ok (some (a * r))
    | none => Except.error ()

/-- Per-row body of `apply_fx`: look up the as-of rate for every row (whatever
its currency), then convert to USD unless the currency upper-cases to "USD",
in which case `AmountUSD` is `safe_float(Amount)`. -/
def applyFxRow (fxU : List FxRate) (r : EnrichedRow) : Except Unit FxAppliedRow :=
  let rate := closest_prior_or_same_rate fxU r.base.base.CurrencyIsoCode r.base.base.CloseDate
  match (if pyUpper r.base.base.CurrencyIsoCode ≠ "USD"
         then to_usd r.base.base.Amount rate
         else Except.ok (safe_float r.base.base.Amount)) with
  | Except.error e => Except.error e
  | Except.ok amountUSD => Except.ok ⟨r, rate, amountUSD⟩

/-- The FX table with currencies upper-cased, as `apply_fx` prepares it
(`fx["currency"] = fx["currency"].str.upper()`). -/
def fxUpperAll (fx : List FxRate) : List FxRate :=
  fx.map (fun f => { f with currency := pyUpper f.currency })

/-- `transformations.apply_fx`: upper-case the FX currencies, then apply the
per-row lookup and conversion; an exception in any row aborts the whole frame
operation. -/
def apply_fx (opp : List EnrichedRow) (fx : List FxRate) : Except Unit (List FxAppliedRow) :=
  opp.mapM (applyFxRow (fxUpperAll fx))

/-- Python truthy token test used for the `is_won` / `is_lost` flags. -/
def truthyTokens : List String := ["true", "1", "t", "y"]

/-- Python `cell or 0.0` on a float-or-null column cell. `hasNum` says whether
the column holds at least one number: if not, the null is a falsy Python `None`
and defaults to 0; if it does, pandas stored the null as a TRUTHY float64 `NaN`
and `or` returns it unchanged (`none` result = `NaN`). A numeric cell is
returned as is (`0.0 or 0.0` is again `0.0`). -/
def orZero (hasNum : Bool) : Option ℚ → Option ℚ
  | none => if hasNum then none else some 0
  | some q => some q

/-- IEEE product of two float cells: `NaN` (here `none`) propagates. -/
def pyMulCells (x y : Option ℚ) : Option ℚ :=
  match x, y with
  | some a, some b => some (a * b)
  | _, _ => none

/-- Per-row body of `transformations.compute_metrics`. `amtUsdHasNum` and
`probHasNum` say whether the frame's `AmountUSD` column (built in `apply_fx`)
and parsed `Probability` column hold at least one number — they decide whether
this row's nulls are `None` or `NaN` in the `(x or 0.0)` defaults, and `NaN`
propagates through the product (`none` = `NaN`). -/
def computeMetricsRow (amtUsdHasNum probHasNum : Bool) (r : FxAppliedRow) : MetricRow :=
  let o := r.base.base.base
  let amount := safe_float o.Amount
  let prob := safe_float o.Probability
  let isWon := truthyTokens.contains (pyLower o.IsWon)
  { Id := o.Id
    AccountId := o.AccountId
    Name := o.Name
    StageName := o.StageName
    StageStd := r.base.base.StageStd
    AccountName := r.base.AccountName
    AccountIndustry := r.base.AccountIndustry
    OwnerId := r.base.OwnerId
    Amount := amount
    CurrencyIsoCode := o.CurrencyIsoCode
    Probability := prob
    CloseDate := o.CloseDate
    CreatedDate := o.CreatedDate
    LastModifiedDate := o.LastModifiedDate
    OwnerEmail := o.OwnerEmail
    Phone := o.Phone
    IsWon := o.IsWon
    IsClosed := o.IsClosed
    fx_rate_used := r.fx_rate_used
    AmountUSD := r.AmountUSD
    expected_revenue_usd :=
      pyMulCells (orZero amtUsdHasNum r.AmountUSD)
        ((orZero probHasNum prob).map (fun p => p / 100))
    sales_cycle_days :=
      match o.CloseDate, o.CreatedDate with
      | some c, some cr => some (c - cr)
      | _, _ => none
    is_won := isWon
    is_lost := truthyTokens.contains (pyLower o.IsClosed) && !isWon }

/-- `transformations.compute_metrics`: parse `Amount`/`Probability`, re-parse the
date columns (the identity on already-parsed values), and derive
`expected_revenue_usd`, `sales_cycle_days`, `is_won`, `is_lost`. The two flags
record whether the `AmountUSD` and parsed `Probability` columns hold at least
one number, which fixes the `None`/`NaN` flavour of their nulls frame-wide. -/
def compute_metrics (l : List FxAppliedRow) : List MetricRow :=
  l.map (computeMetricsRow (l.any (fun r => r.AmountUSD.isSome))
    (l.any (fun r => (safe_float r.base.base.base.Probability).isSome)))

/-- Per-row body of `transformations.sanitize_pii`. -/
def sanitizeRow (r : MetricRow) : FullRow :=
  ⟨r, hash_email r.OwnerEmail, normalize_phone r.Phone⟩

/-- `transformations.sanitize_pii`. -/
def sanitize_pii (l : List MetricRow) : List FullRow := l.map sanitizeRow

/-- Column projection of `canonical_select`. -/
def projectRow (r : FullRow) : CanonRow :=
  { Id := r.base.Id
    AccountId := r.base.AccountId
    AccountName := r.base.AccountName
    AccountIndustry := r.base.AccountIndustry
    Name := r.base.Name
    StageName := r.base.StageName
    StageStd := r.base.StageStd
    Amount := r.base.Amount
    CurrencyIsoCode := r.base.CurrencyIsoCode
    AmountUSD := r.base.AmountUSD
    expected_revenue_usd := r.base.expected_revenue_usd
    Probability := r.base.Probability
    CloseDate := r.base.CloseDate
    CreatedDate := r.base.CreatedDate
    LastModifiedDate := r.base.LastModifiedDate
    sales_cycle_days := r.base.sales_cycle_days
    owner_email_hash := r.owner_email_hash
    phone_normalized := r.phone_normalized
    is_won := r.base.is_won
    is_lost := r.base.is_lost }

/-- Sort key order of `canonical_select`: ascending close date with nulls last,
then ascending identifier. -/
def keyLE : Option Int × String → Option Int × String → Prop
  | (none, i1), (none, i2) => i1 ≤ i2
  | (none, _), (some _, _) => False
  | (some _, _), (none, _) => True
  | (some d1, i1), (some d2, i2) => d1 < d2 ∨ (d1 = d2 ∧ i1 ≤ i2)

instance : DecidableRel keyLE := fun x y => by
  rcases x with ⟨_ | d1, i1⟩ <;> rcases y with ⟨_ | d2, i2⟩ <;> unfold keyLE <;> infer_instance

theorem keyLE_total (x y : Option Int × String) : keyLE x y ∨ keyLE y x := by
  rcases x with ⟨_ | d1, i1⟩ <;> rcases y with ⟨_ | d2, i2⟩ <;> unfold keyLE
  · exact le_total i1 i2
  · exact Or.inr trivial
  · exact Or.inl trivial
  · rcases lt_trichotomy d1 d2 with h | h | h
    · exact Or.inl (Or.inl h)
    · rcases le_total i1 i2 with h2 | h2
      · exact Or.inl (Or.inr ⟨h, h2⟩)
      · exact Or.inr (Or.inr ⟨h.symm, h2⟩)
    · exact Or.inr (Or.inl h)

theorem keyLE_trans {x y z : Option Int × String} (h1 : keyLE x y) (h2 : keyLE y z) :
    keyLE x z := by
  rcases x with ⟨_ | d1, i1⟩ <;> rcases y with ⟨_ | d2, i2⟩ <;> rcases z with ⟨_ | d3, i3⟩ <;>
    unfold keyLE at * <;> try trivial
  · exact le_trans h1 h2
  · rcases h1 with h1 | ⟨h1, h1'⟩ <;> rcases h2 with h2 | ⟨h2, h2'⟩
    · exact Or.inl (lt_trans h1 h2)
    · exact Or.inl (h2 ▸ h1)
    · exact Or.inl (h1 ▸ h2)
    · exact Or.inr ⟨h1.trans h2, le_trans h1' h2'⟩

/-- Sort order of `canonical_select`: ascending `CloseDate` with nulls last,
then ascending `Id` (`sort_values(["CloseDate","Id"], na_position="last")`). -/
def canonLE (a b : CanonRow) : Prop := keyLE (a.CloseDate, a.Id) (b.CloseDate, b.Id)

instance : DecidableRel canonLE := fun a b =>
  inferInstanceAs (Decidable (keyLE (a.CloseDate, a.Id) (b.CloseDate, b.Id)))

instance : IsTotal CanonRow canonLE := ⟨fun a b => keyLE_total _ _⟩

instance : IsTrans CanonRow canonLE := ⟨fun _ _ _ => keyLE_trans⟩

/-- `transformations.canonical_select`: project the canonical column set and
sort by close date (nulls last) then identifier. -/
def canonical_select (rows : List FullRow) : List CanonRow :=
  List.insertionSort canonLE (rows.map projectRow)

/-! ## Validation and the pipeline -/

/-- `utils.REQUIRED_OPP_COLS`. -/
def REQUIRED_OPP_COLS : List String :=
  ["Id", "AccountId", "Name", "StageName", "Amount", "CurrencyIsoCode", "Probability",
   "CloseDate", "CreatedDate", "LastModifiedDate", "OwnerEmail", "Phone", "IsWon", "IsClosed"]

/-- `utils.REQUIRED_ACCT_COLS`. -/
def REQUIRED_ACCT_COLS : List String := ["Id", "Name", "Industry", "OwnerId"]

/-- `utils.enforce_required`: the required columns absent from the table. -/
def enforce_required (cols : List String) (required : List String) : List String :=
  required.filter (fun c => !(cols.contains c))

/-- Errors the pipeline can raise: the schema `ValueError` listing the missing
columns per table (the spec's `SchemaError`), or a row-level `ValueError`
propagated from a frame operation. -/
inductive PipelineErr where
  | schemaError (missingOpp missingAcct : List String)
  | valueError
deriving DecidableEq, Repr

/-- `transformations.run_pipeline` after loading: validate required columns,
dedupe, normalize stages, enrich accounts, apply FX, compute metrics, sanitize
PII, and project; returns the canonical frame and the full enriched frame. -/
def run_pipeline (opp : Table OppRow) (accts : Table AcctRow) (fx : List FxRate)
    (stage_map : List StageMapRow) : Except PipelineErr (List CanonRow × List FullRow) :=
  let missing_opp := enforce_required opp.cols REQUIRED_OPP_COLS
  let missing_acct := enforce_required accts.cols REQUIRED_ACCT_COLS
  if missing_opp ≠ [] ∨ missing_acct ≠ [] then
    Except.error (PipelineErr.schemaError missing_opp missing_acct)
  else
    let o1 := dedupe_latest opp.rows
    let o2 := normalize_stages o1 stage_map
    let o3 := enrich_accounts o2 accts.rows
    match apply_fx o3 fx with
    | Except.error _ => Except.error PipelineErr.valueError
    | Except.ok o4 =>
      let o5 := compute_metrics o4
      let o6 := sanitize_pii o5
      Except.ok (canonical_select o6, o6)

/-! ## `quality_checks.py` -/

/-- Per-row body of `quality_checks.anomaly_rules`; `today` is
`pd.Timestamp.now(tz=None).normalize()` at day resolution. -/
def rowIssues (today : Int) (r : FullRow) : List Anomaly :=
  (match r.base.Amount with
   | some a => if a < 0 then [⟨r.base.Id, "NEG_AMOUNT", "Amount is negative"⟩] else []
   | none => []) ++
  (match r.base.Probability with
   | some p =>
     if p < 0 ∨ 100 < p then [⟨r.base.Id, "PROB_OOB", "Probability outside 0-100"⟩] else []
   | none => []) ++
  (match r.base.CloseDate with
   | some c =>
     if today + 1 < c then [⟨r.base.Id, "FUTURE_CLOSE", "CloseDate in the future"⟩] else []
   | none => []) ++
  (match r.base.StageStd with
   | none => [⟨r.base.Id, "MISSING_STAGE_MAP", "Stage could not be mapped to standard taxonomy"⟩]
   | some _ => []) ++
  (if r.base.CurrencyIsoCode ≠ "" ∧ r.base.fx_rate_used = none then
    [⟨r.base.Id, "MISSING_FX", "FX rate missing for currency/date"⟩]
   else [])

/-- `quality_checks.anomaly_rules`: evaluate the five rules per row, in frame
order, collecting one anomaly row per triggered rule. -/
def anomaly_rules (today : Int) (rows : List FullRow) : List Anomaly :=
  rows.flatMap (rowIssues today)

/-! ## Helper lemmas -/

theorem tsLE_refl (x : Option Int) : tsLE x x = true := by
  cases x <;> simp [tsLE]

theorem insertionSort_ne_nil {α : Type} (r : α → α → Prop) [DecidableRel r]
    {l : List α} (h : l ≠ []) : List.insertionSort r l ≠ [] := by
  intro he
  have hp := List.perm_insertionSort r l
  rw [he] at hp
  exact h hp.symm.eq_nil

theorem insertionSort_fxDesc_head {l : List FxRate} {h : FxRate} {t : List FxRate}
    (he : List.insertionSort fxDesc l = h :: t) :
    h ∈ l ∧ ∀ x ∈ l, x.rate_date ≤ h.rate_date := by
  have hp := List.perm_insertionSort fxDesc l
  rw [he] at hp
  refine ⟨hp.mem_iff.mp (List.mem_cons_self h t), fun x hx => ?_⟩
  have hx' : x ∈ h :: t := hp.mem_iff.mpr hx
  have hs := List.sorted_insertionSort fxDesc l
  rw [he] at hs
  rcases List.mem_cons.mp hx' with rfl | hxt
  · exact le_refl _
  · have hr := (List.sorted_cons.mp hs).1 x hxt
    simpa [fxDesc, dateGE] using hr

theorem filter_map_comm {α β : Type} (f : α → β) (p : β → Bool) (l : List α) :
    (l.map f).filter p = (l.filter (fun x => p (f x))).map f := by
  induction l with
  | nil => rfl
  | cons a t ih => by_cases h : p (f a) = true <;> simp [h, ih]

theorem keepLast_subset {r : OppRow} : ∀ {l : List OppRow}, r ∈ keepLastById l → r ∈ l := by
  intro l
  induction l with
  | nil => intro h; exact absurd h (List.not_mem_nil r)
  | cons a t ih =>
    intro h
    unfold keepLastById at h
    by_cases ha : t.any (fun s => s.Id == a.Id) = true
    · rw [if_pos ha] at h
      exact List.mem_cons_of_mem a (ih h)
    · rw [if_neg ha] at h
      rcases List.mem_cons.mp h with rfl | h'
      · exact List.mem_cons_self r t
      · exact List.mem_cons_of_mem a (ih h')

theorem keepLast_max : ∀ {l : List OppRow}, l.Sorted dedupeLE →
    ∀ r ∈ keepLastById l, ∀ s ∈ l, s.Id = r.Id →
      tsLE s.LastModifiedDate r.LastModifiedDate = true := by
  intro l
  induction l with
  | nil => intro _ r hr; exact absurd hr (List.not_mem_nil r)
  | cons a t ih =>
    intro hs r hr s hsm hid
    have hpair := List.sorted_cons.mp hs
    unfold keepLastById at hr
    by_cases ha : t.any (fun x => x.Id == a.Id) = true
    · rw [if_pos ha] at hr
      rcases List.mem_cons.mp hsm with rfl | hst
      · exact hpair.1 r (keepLast_subset hr)
      · exact ih hpair.2 r hr s hst hid
    · rw [if_neg ha] at hr
      rcases List.mem_cons.mp hr with rfl | hrt
      · rcases List.mem_cons.mp hsm with rfl | hst
        · exact tsLE_refl _
        · exfalso
          have : (s.Id == r.Id) = true := beq_iff_eq.mpr hid
          exact ha (List.any_eq_true.mpr ⟨s, hst, this⟩)
      · rcases List.mem_cons.mp hsm with rfl | hst
        · exact hpair.1 r (keepLast_subset hrt)
        · exact ih hpair.2 r hrt s hst hid

theorem keepLast_countP (id : String) : ∀ (l : List OppRow),
    (keepLastById l).countP (fun r => r.Id == id) =
      if l.any (fun r => r.Id == id) then 1 else 0 := by
  intro l
  induction l with
  | nil => rfl
  | cons a t ih =>
    unfold keepLastById
    by_cases ha : t.any (fun s => s.Id == a.Id) = true
    · rw [if_pos ha, ih]
      by_cases hid : (a.Id == id) = true
      · have haid : a.Id = id := beq_iff_eq.mp hid
        have ht : t.any (fun r => r.Id == id) = true := by
          rcases List.any_eq_true.mp ha with ⟨x, hx, hxid⟩
          exact List.any_eq_true.mpr ⟨x, hx, by rw [beq_iff_eq] at *; rw [hxid, haid]⟩
        simp [List.any_cons, ht]
      · simp [List.any_cons, hid]
    · rw [if_neg ha]
      rw [List.countP_cons, ih]
      by_cases hid : (a.Id == id) = true
      · have haid : a.Id = id := beq_iff_eq.mp hid
        have ht : t.any (fun r => r.Id == id) = false := by
          rcases hany : t.any (fun r => r.Id == id) with _ | _
          · rfl
          · exfalso
            rcases List.any_eq_true.mp hany with ⟨x, hx, hxid⟩
            exact ha (List.any_eq_true.mpr
              ⟨x, hx, by rw [beq_iff_eq] at *; rw [hxid, haid]⟩)
        simp [List.any_cons, ht, hid]
      · simp [List.any_cons, hid]

theorem perm_any {α : Type} {l1 l2 : List α} (h : l1.Perm l2) (p : α → Bool) :
    l1.any p = l2.any p := by
  rcases h2 : l2.any p with _ | _
  · rcases h1 : l1.any p with _ | _
    · rfl
    · exfalso
      rcases List.any_eq_true.mp h1 with ⟨x, hx, hp⟩
      have : l2.any p = true := List.any_eq_true.mpr ⟨x, h.mem_iff.mp hx, hp⟩
      rw [h2] at this
      exact Bool.false_ne_true this
  · rcases List.any_eq_true.mp h2 with ⟨x, hx, hp⟩
    exact List.any_eq_true.mpr ⟨x, h.mem_iff.mpr hx, hp⟩

/-! ## Claim C1 — deduplication -/

/-- Opportunity row with identifier "a" and a parseable last-modified timestamp. -/
def c1RowParsed : OppRow :=
  { Id := "a", AccountId := "A1", Name := "Deal", StageName := "Commit - Won",
    Amount := "100", CurrencyIsoCode := "USD", Probability := "50",
    CloseDate := some 10, CreatedDate := some 1, LastModifiedDate := some 5,
    OwnerEmail := "o@x.com", Phone := "+15550001234", IsWon := "false", IsClosed := "false" }

/-- Opportunity row with the same identifier and an unparseable (`NaT`)
last-modified timestamp. -/
def c1RowNaT : OppRow :=
  { Id := "a", AccountId := "A1", Name := "Deal", StageName := "Commit - Won",
    Amount := "100", CurrencyIsoCode := "USD", Probability := "50",
    CloseDate := some 10, CreatedDate := some 1, LastModifiedDate := none,
    OwnerEmail := "o@x.com", Phone := "+15550001234", IsWon := "false", IsClosed := "false" }

/-- Claim C1 counterexample: with one record carrying a parsed timestamp and a
duplicate carrying an unparseable one, `dedupe_latest` retains the record with
the UNPARSEABLE timestamp — `sort_values` places `NaT` last (`na_position`
defaults to "last"), so `keep="last"` prefers it. The claim says the record
with the valid timestamp is always preferred. -/
theorem dedupe_latest_prefers_unparseable :
    dedupe_latest [c1RowParsed, c1RowNaT] = [c1RowNaT] ∧
    c1RowParsed.Id = c1RowNaT.Id ∧
    c1RowParsed.LastModifiedDate = some 5 ∧ c1RowNaT.LastModifiedDate = none := by
  refine ⟨?_, rfl, rfl, rfl⟩
  decide

/-- Claim C1 (amended): for every input set, `dedupe_latest` keeps exactly one
record per identifier present in the input, and the retained record is maximal
in the order where an unparseable last-modified timestamp counts as the LATEST
possible value (so an unparseable record is preferred over a parseable one). -/
theorem dedupe_latest_amended (rows : List OppRow) :
    (∀ r ∈ dedupe_latest rows, ∀ s ∈ rows, s.Id = r.Id →
      tsLE s.LastModifiedDate r.LastModifiedDate = true) ∧
    (∀ id : String, rows.any (fun r => r.Id == id) = true →
      (dedupe_latest rows).countP (fun r => r.Id == id) = 1) := by
  constructor
  · intro r hr s hsm hid
    have hsorted := List.sorted_insertionSort dedupeLE rows
    have hperm := List.perm_insertionSort dedupeLE rows
    exact keepLast_max hsorted r hr s (hperm.mem_iff.mpr hsm) hid
  · intro id hany
    unfold dedupe_latest
    rw [keepLast_countP]
    have hperm := List.perm_insertionSort dedupeLE rows
    rw [perm_any hperm, hany]
    rfl

/-- Witness for the amended Claim C1 at a concrete input: the unparseable-stamp
record dominates the parseable one in the retained order, and identifier "a"
survives exactly once. -/
theorem dedupe_latest_amended_witness :
    tsLE (some 5) none = true ∧
    (dedupe_latest [c1RowParsed, c1RowNaT]).countP (fun r => r.Id == "a") = 1 := by
  constructor
  · exact (dedupe_latest_amended [c1RowParsed, c1RowNaT]).1 c1RowNaT (by decide)
      c1RowParsed (by decide) rfl
  · exact (dedupe_latest_amended [c1RowParsed, c1RowNaT]).2 "a" (by decide)

/-! ## Claims C2 and C3 — FX rate resolution -/

theorem closest_prior_branch (fx : List FxRate) (cur : String) (d : Int)
    (hcur : ¬ cur = "")
    (hex : ∃ m ∈ fx, m.currency = pyUpper cur ∧ m.rate_date ≤ d) :
    ∃ m ∈ fx, m.currency = pyUpper cur ∧ m.rate_date ≤ d ∧
      (∀ x ∈ fx, x.currency = pyUpper cur → x.rate_date ≤ d → x.rate_date ≤ m.rate_date) ∧
      closest_prior_or_same_rate fx cur (some d) = some m.rate_to_usd := by
  obtain ⟨m0, hm0, hmc, hmd⟩ := hex
  have hm0sub : m0 ∈ fx.filter (fun r => r.currency == pyUpper cur) :=
    List.mem_filter.mpr ⟨hm0, beq_iff_eq.mpr hmc⟩
  have hm0sub2 : m0 ∈ (fx.filter (fun r => r.currency == pyUpper cur)).filter
      (fun r => decide (r.rate_date ≤ d)) :=
    List.mem_filter.mpr ⟨hm0sub, decide_eq_true hmd⟩
  have hsub2ne : (fx.filter (fun r => r.currency == pyUpper cur)).filter
      (fun r => decide (r.rate_date ≤ d)) ≠ [] := by
    intro h
    rw [h] at hm0sub2
    exact absurd hm0sub2 (List.not_mem_nil _)
  obtain ⟨h, t, hht⟩ : ∃ h t, List.insertionSort fxDesc
      ((fx.filter (fun r => r.currency == pyUpper cur)).filter
        (fun r => decide (r.rate_date ≤ d))) = h :: t := by
    cases hs : List.insertionSort fxDesc ((fx.filter (fun r => r.currency == pyUpper cur)).filter
        (fun r => decide (r.rate_date ≤ d))) with
    | nil => exact absurd hs (insertionSort_ne_nil _ hsub2ne)
    | cons h t => exact ⟨h, t, rfl⟩
  obtain ⟨hhmem, hhmax⟩ := insertionSort_fxDesc_head hht
  have hhsub : h ∈ fx.filter (fun r => r.currency == pyUpper cur) :=
    (List.mem_filter.mp hhmem).1
  have hhd : h.rate_date ≤ d := of_decide_eq_true (List.mem_filter.mp hhmem).2
  have hhfx : h ∈ fx := (List.mem_filter.mp hhsub).1
  have hhc : h.currency = pyUpper cur := beq_iff_eq.mp (List.mem_filter.mp hhsub).2
  refine ⟨h, hhfx, hhc, hhd, fun x hx hxc hxd => ?_, ?_⟩
  · exact hhmax x (List.mem_filter.mpr
      ⟨List.mem_filter.mpr ⟨hx, beq_iff_eq.mpr hxc⟩, decide_eq_true hxd⟩)
  · unfold closest_prior_or_same_rate
    dsimp only
    rw [if_neg hcur]
    have hempty : ¬ ((fx.filter (fun r => r.currency == pyUpper cur)).isEmpty = true) := by
      intro hi
      have : fx.filter (fun r => r.currency == pyUpper cur) = [] :=
        List.isEmpty_iff.mp hi
      rw [this] at hm0sub
      exact absurd hm0sub (List.not_mem_nil _)
    rw [if_neg hempty, hht]

theorem closest_fallback_branch (fx : List FxRate) (cur : String) (d : Int)
    (hcur : ¬ cur = "")
    (hex : ∃ m ∈ fx, m.currency = pyUpper cur)
    (hall : ∀ x ∈ fx, x.currency = pyUpper cur → d < x.rate_date) :
    ∃ m ∈ fx, m.currency = pyUpper cur ∧
      (∀ x ∈ fx, x.currency = pyUpper cur → x.rate_date ≤ m.rate_date) ∧
      closest_prior_or_same_rate fx cur (some d) = some m.rate_to_usd := by
  obtain ⟨m0, hm0, hmc⟩ := hex
  have hm0sub : m0 ∈ fx.filter (fun r => r.currency == pyUpper cur) :=
    List.mem_filter.mpr ⟨hm0, beq_iff_eq.mpr hmc⟩
  have hsubne : fx.filter (fun r => r.currency == pyUpper cur) ≠ [] := by
    intro h
    rw [h] at hm0sub
    exact absurd hm0sub (List.not_mem_nil _)
  have hsub2nil : (fx.filter (fun r => r.currency == pyUpper cur)).filter
      (fun r => decide (r.rate_date ≤ d)) = [] := by
    rw [List.filter_eq_nil]
    intro a ha
    have hamem := (List.mem_filter.mp ha).1
    have hacur : a.currency = pyUpper cur := beq_iff_eq.mp (List.mem_filter.mp ha).2
    have := hall a hamem hacur
    simp only [decide_eq_true_eq]
    omega
  obtain ⟨h, t, hht⟩ : ∃ h t, List.insertionSort fxDesc
      (fx.filter (fun r => r.currency == pyUpper cur)) = h :: t := by
    cases hs : List.insertionSort fxDesc (fx.filter (fun r => r.currency == pyUpper cur)) with
    | nil => exact absurd hs (insertionSort_ne_nil _ hsubne)
    | cons h t => exact ⟨h, t, rfl⟩
  obtain ⟨hhmem, hhmax⟩ := insertionSort_fxDesc_head hht
  have hhfx : h ∈ fx := (List.mem_filter.mp hhmem).1
  have hhc : h.currency = pyUpper cur := beq_iff_eq.mp (List.mem_filter.mp hhmem).2
  refine ⟨h, hhfx, hhc, fun x hx hxc => ?_, ?_⟩
  · exact hhmax x (List.mem_filter.mpr ⟨hx, beq_iff_eq.mpr hxc⟩)
  · unfold closest_prior_or_same_rate
    dsimp only
    rw [if_neg hcur]
    have hempty : ¬ ((fx.filter (fun r => r.currency == pyUpper cur)).isEmpty = true) := by
      intro hi
      exact hsubne (List.isEmpty_iff.mp hi)
    rw [if_neg hempty, hsub2nil]
    dsimp only [List.insertionSort]
    rw [hht]

/-- Claim C2 counterexample: the currency "EUR" has a rate row (dated 10, rate 2),
the opportunity's close date is null, and the resolved rate is `None`, not the
latest available rate: the null close date hits the early `pd.isna(asof_date)`
return before the fallback is considered. -/
theorem closest_rate_null_close_counterexample :
    closest_prior_or_same_rate [⟨"EUR", 10, 2⟩] "EUR" none = none ∧
    ¬ closest_prior_or_same_rate [⟨"EUR", 10, 2⟩] "EUR" none = some 2 := by
  exact ⟨rfl, by decide⟩

/-- Claim C2 (amended): the fall-back to the single latest-dated rate of the
currency applies only when the close date is NON-null and predates every rate
row of that currency; a null close date resolves to a null rate (no fallback). -/
theorem closest_rate_fallback_amended (fx : List FxRate) (cur : String) (d : Int)
    (hcur : ¬ cur = "")
    (hex : ∃ m ∈ fx, m.currency = pyUpper cur)
    (hall : ∀ x ∈ fx, x.currency = pyUpper cur → d < x.rate_date) :
    (∃ m ∈ fx, m.currency = pyUpper cur ∧
      (∀ x ∈ fx, x.currency = pyUpper cur → x.rate_date ≤ m.rate_date) ∧
      closest_prior_or_same_rate fx cur (some d) = some m.rate_to_usd) ∧
    closest_prior_or_same_rate fx cur none = none :=
  ⟨closest_fallback_branch fx cur d hcur hex hall, rfl⟩

/-- Witness for the amended Claim C2: with rates for "EUR" dated 4 and 10 and a
close date of 1 (before both), the resolved rate is the latest-dated one
(rate 2 at date 10), while a null close date resolves to `None`. -/
theorem closest_rate_fallback_amended_witness :
    (∃ m ∈ [(⟨"EUR", 10, 2⟩ : FxRate), ⟨"EUR", 4, 3⟩], m.currency = pyUpper "EUR" ∧
      (∀ x ∈ [(⟨"EUR", 10, 2⟩ : FxRate), ⟨"EUR", 4, 3⟩], x.currency = pyUpper "EUR" →
        x.rate_date ≤ m.rate_date) ∧
      closest_prior_or_same_rate [⟨"EUR", 10, 2⟩, ⟨"EUR", 4, 3⟩] "EUR" (some 1) =
        some m.rate_to_usd) ∧
    closest_prior_or_same_rate [⟨"EUR", 10, 2⟩, ⟨"EUR", 4, 3⟩] "EUR" none = none :=
  closest_rate_fallback_amended [⟨"EUR", 10, 2⟩, ⟨"EUR", 4, 3⟩] "EUR" 1
    (by decide) (by decide) (by decide)

/-- Claim C3: for a non-USD opportunity with a non-null close date on or after
some FX rate date for its currency (matched case-insensitively through
upper-casing on both sides, as `apply_fx` and `closest_prior_or_same_rate` do),
the resolved rate is the rate of a row whose date is the latest date ≤ the
close date — never a later-dated row, and not the nearest by absolute
difference. -/
theorem fx_rate_is_latest_on_or_before (fx : List FxRate) (cur : String) (d : Int)
    (hcur : ¬ cur = "")
    (husd : ¬ pyUpper cur = "USD")
    (hex : ∃ m ∈ fx, pyUpper m.currency = pyUpper cur ∧ m.rate_date ≤ d) :
    ∃ m ∈ fx, pyUpper m.currency = pyUpper cur ∧ m.rate_date ≤ d ∧
      (∀ x ∈ fx, pyUpper x.currency = pyUpper cur → x.rate_date ≤ d →
        x.rate_date ≤ m.rate_date) ∧
      closest_prior_or_same_rate (fxUpperAll fx) cur (some d) = some m.rate_to_usd := by
  obtain ⟨m1, hm1, hm1c, hm1d⟩ := hex
  have hex' : ∃ m ∈ fxUpperAll fx, m.currency = pyUpper cur ∧ m.rate_date ≤ d := by
    refine ⟨{ m1 with currency := pyUpper m1.currency }, ?_, hm1c, hm1d⟩
    exact List.mem_map.mpr ⟨m1, hm1, rfl⟩
  obtain ⟨m', hm'mem, hm'c, hm'd, hmax', heq⟩ := closest_prior_branch (fxUpperAll fx) cur d hcur hex'
  obtain ⟨m0, hm0, hm0e⟩ := List.mem_map.mp hm'mem
  have hm0c : pyUpper m0.currency = pyUpper cur := by rw [← hm'c, ← hm0e]
  have hm0d : m0.rate_date ≤ d := by
    have : m'.rate_date = m0.rate_date := by rw [← hm0e]
    omega
  refine ⟨m0, hm0, hm0c, hm0d, fun x hx hxc hxd => ?_, ?_⟩
  · have hux : ({ x with currency := pyUpper x.currency } : FxRate) ∈ fxUpperAll fx :=
      List.mem_map.mpr ⟨x, hx, rfl⟩
    have hle := hmax' { x with currency := pyUpper x.currency } hux hxc hxd
    have hm'date : m'.rate_date = m0.rate_date := by rw [← hm0e]
    have hxr : ({ x with currency := pyUpper x.currency } : FxRate).rate_date = x.rate_date := rfl
    omega
  · rw [heq, ← hm0e]

/-- Witness for Claim C3: FX rows for "eur" dated 2, 10 and 20, opportunity
currency "Eur", close date 14: the resolved rate is 27/25 (the row dated 10 —
the latest on or before 14, though date 20 would have a smaller gap in one
direction and date 10 beats date 2). -/
theorem fx_rate_is_latest_on_or_before_witness :
    ∃ m ∈ [(⟨"eur", 10, 27/25⟩ : FxRate), ⟨"eur", 20, 3⟩, ⟨"eur", 2, 1⟩],
      pyUpper m.currency = pyUpper "Eur" ∧ m.rate_date ≤ 14 ∧
      (∀ x ∈ [(⟨"eur", 10, 27/25⟩ : FxRate), ⟨"eur", 20, 3⟩, ⟨"eur", 2, 1⟩],
        pyUpper x.currency = pyUpper "Eur" → x.rate_date ≤ 14 →
        x.rate_date ≤ m.rate_date) ∧
      closest_prior_or_same_rate
        (fxUpperAll [⟨"eur", 10, 27/25⟩, ⟨"eur", 20, 3⟩, ⟨"eur", 2, 1⟩]) "Eur" (some 14) =
        some m.rate_to_usd :=
  fx_rate_is_latest_on_or_before [⟨"eur", 10, 27/25⟩, ⟨"eur", 20, 3⟩, ⟨"eur", 2, 1⟩]
    "Eur" 14 (by decide) (by decide) (by decide)

instance {ε α : Type} [DecidableEq ε] [DecidableEq α] : DecidableEq (Except ε α) := fun x y =>
  match x, y with
  | Except.error a, Except.error b =>
    match decEq a b with
    | isTrue h => isTrue (by rw [h])
    | isFalse h => isFalse (by intro hc; cases hc; exact h rfl)
  | Except.error _, Except.ok _ => isFalse (by intro hc; cases hc)
  | Except.ok _, Except.error _ => isFalse (by intro hc; cases hc)
  | Except.ok a, Except.ok b =>
    match decEq a b with
    | isTrue h => isTrue (by rw [h])
    | isFalse h => isFalse (by intro hc; cases hc; exact h rfl)

/-! ## Claim C4 — currency conversion -/

/-- Opportunity row in EUR whose `Amount` cell is blank (missing). -/
def c4Opp : OppRow :=
  { Id := "0041", AccountId := "A1", Name := "Deal4", StageName := "Commit - Won",
    Amount := "", CurrencyIsoCode := "EUR", Probability := "50",
    CloseDate := some 20, CreatedDate := some 1, LastModifiedDate := some 2,
    OwnerEmail := "o@x.com", Phone := "+15550001234", IsWon := "false", IsClosed := "false" }

/-- The enriched form of `c4Opp` as it reaches `apply_fx`. -/
def c4Row : EnrichedRow := ⟨⟨c4Opp, some "Commit"⟩, some "Acme", some "Tech", some "own1"⟩

/-- Claim C4 failing input: a non-USD opportunity with a blank (missing) amount
and a resolvable FX rate makes `apply_fx` raise `ValueError` — `pd.isna("")` is
`False` on the string-typed column, so `to_usd` reaches `float("")`. The claim
says a null amount yields a null `amount_usd` and that conversion never raises. -/
theorem apply_fx_raises_on_blank_amount :
    apply_fx [c4Row] [⟨"EUR", 10, 27/25⟩] = Except.error () ∧
    c4Row.base.base.Amount = "" ∧
    pyUpper c4Row.base.base.CurrencyIsoCode = "EUR" ∧
    closest_prior_or_same_rate (fxUpperAll [⟨"EUR", 10, 27/25⟩])
      c4Row.base.base.CurrencyIsoCode c4Row.base.base.CloseDate = some (27/25) := by
  refine ⟨by with_unfolding_all decide, rfl, by decide, by with_unfolding_all decide⟩

/-! ## Claim C5 — schema validation is not the only failure point -/

/-- Opportunity table for C5: every required column present, one EUR row with a
blank amount. -/
def c5OppTable : Table OppRow :=
  ⟨REQUIRED_OPP_COLS,
   [{ Id := "0051", AccountId := "A1", Name := "Deal5", StageName := "Commit - Won",
      Amount := "", CurrencyIsoCode := "EUR", Probability := "50",
      CloseDate := some 20, CreatedDate := some 1, LastModifiedDate := some 2,
      OwnerEmail := "o@x.com", Phone := "+15550001234", IsWon := "false", IsClosed := "false" }]⟩

/-- Account table for C5: every required column present. -/
def c5AcctTable : Table AcctRow :=
  ⟨REQUIRED_ACCT_COLS, [{ Id := "A1", Name := "Acme", Industry := "Tech", OwnerId := "o1" }]⟩

/-- Claim C5 failing input: with every required column present in both tables,
the pipeline still raises — a row-level `ValueError` out of `apply_fx`
(`float("")` on the blank EUR amount), not a schema error. The claim says the
missing-column check is the only hard-fail point and that the pipeline never
raises for row-level data. -/
theorem run_pipeline_raises_after_validation :
    run_pipeline c5OppTable c5AcctTable [⟨"EUR", 10, 27/25⟩] [⟨"Commit - Won", "Commit"⟩] =
      Except.error PipelineErr.valueError ∧
    enforce_required c5OppTable.cols REQUIRED_OPP_COLS = [] ∧
    enforce_required c5AcctTable.cols REQUIRED_ACCT_COLS = [] := by
  refine ⟨by with_unfolding_all decide, by decide, by decide⟩

/-! ## Claim C8 — expected revenue null policy -/

/-- Opportunity row in EUR whose amount converts (the frame's `AmountUSD`
column therefore holds a number). -/
def c8OppEur : OppRow :=
  { Id := "0081", AccountId := "A1", Name := "Deal8a", StageName := "Commit - Won",
    Amount := "100", CurrencyIsoCode := "EUR", Probability := "50",
    CloseDate := some 20, CreatedDate := some 1, LastModifiedDate := some 2,
    OwnerEmail := "o@x.com", Phone := "+15550001234", IsWon := "false", IsClosed := "false" }

/-- Opportunity row in JPY for which no FX rate resolves (`AmountUSD` null). -/
def c8OppJpy : OppRow :=
  { Id := "0082", AccountId := "A1", Name := "Deal8b", StageName := "Commit - Won",
    Amount := "9000", CurrencyIsoCode := "JPY", Probability := "50",
    CloseDate := some 20, CreatedDate := some 1, LastModifiedDate := some 2,
    OwnerEmail := "o@x.com", Phone := "+15550001234", IsWon := "false", IsClosed := "false" }

/-- The EUR row as it leaves `apply_fx`: rate 27/25, `AmountUSD` 108. -/
def c8RowEur : FxAppliedRow :=
  ⟨⟨⟨c8OppEur, some "Commit"⟩, some "Acme", some "Tech", some "own1"⟩, some (27/25), some 108⟩

/-- The JPY row as it leaves `apply_fx`: no rate, `AmountUSD` null. -/
def c8RowJpy : FxAppliedRow :=
  ⟨⟨⟨c8OppJpy, some "Commit"⟩, some "Acme", some "Tech", some "own1"⟩, none, none⟩

/-- Claim C8 counterexample: in a frame whose `AmountUSD` column holds a number
(the EUR row), the JPY row's null `AmountUSD` is a float64 `NaN` — truthy in
Python — so `(r.get("AmountUSD") or 0.0)` returns `NaN` and
`expected_revenue_usd` is `NaN` (null propagates). The claim predicts
`0 * (50/100) = 0` for that row, i.e. the column `[some 54, some 0]`. -/
theorem expected_revenue_null_propagates :
    (compute_metrics [c8RowEur, c8RowJpy]).map MetricRow.expected_revenue_usd =
      [some 54, none] ∧
    ¬ (compute_metrics [c8RowEur, c8RowJpy]).map MetricRow.expected_revenue_usd =
      [some 54, some 0] ∧
    c8RowJpy.AmountUSD = none := by
  refine ⟨by with_unfolding_all decide, by with_unfolding_all decide, rfl⟩

/-- Claim C8 (amended): `expected_revenue_usd` is
`(amount_usd or 0.0) * ((probability or 0.0) / 100)` under the pandas cell
semantics of `or`: when both cells are numbers the product formula holds, and a
null cell contributes zero ONLY when its whole column is null (a falsy Python
`None`); when the column also holds a number the null is a truthy float64 `NaN`
and the result is `NaN` — the null propagates instead of contributing zero. -/
theorem expected_revenue_amended (l : List FxAppliedRow) :
    ∀ m ∈ compute_metrics l,
      (m.expected_revenue_usd = none ↔
        ((m.AmountUSD = none ∧ ∃ r ∈ l, r.AmountUSD ≠ none) ∨
         (m.Probability = none ∧ ∃ r ∈ l, safe_float r.base.base.base.Probability ≠ none))) ∧
      (∀ a p : ℚ, m.AmountUSD = some a → m.Probability = some p →
        m.expected_revenue_usd = some (a * (p / 100))) ∧
      (m.expected_revenue_usd ≠ none →
        m.expected_revenue_usd =
          some ((m.AmountUSD.getD 0) * ((m.Probability.getD 0) / 100))) := by
  intro m hm
  simp only [compute_metrics] at hm
  rcases List.mem_map.mp hm with ⟨r, hr, rfl⟩
  have hamiff : (l.any (fun x => x.AmountUSD.isSome) = true) ↔
      (∃ x ∈ l, x.AmountUSD ≠ none) := by
    simp [List.any_eq_true, Option.isSome_iff_ne_none]
  have hpmiff : (l.any (fun x => (safe_float x.base.base.base.Probability).isSome) = true) ↔
      (∃ x ∈ l, safe_float x.base.base.base.Probability ≠ none) := by
    simp [List.any_eq_true, Option.isSome_iff_ne_none]
  have hA : (computeMetricsRow (l.any (fun x => x.AmountUSD.isSome))
      (l.any (fun x => (safe_float x.base.base.base.Probability).isSome)) r).AmountUSD =
      r.AmountUSD := rfl
  have hP : (computeMetricsRow (l.any (fun x => x.AmountUSD.isSome))
      (l.any (fun x => (safe_float x.base.base.base.Probability).isSome)) r).Probability =
      safe_float r.base.base.base.Probability := rfl
  have hE : (computeMetricsRow (l.any (fun x => x.AmountUSD.isSome))
      (l.any (fun x => (safe_float x.base.base.base.Probability).isSome)) r).expected_revenue_usd =
      pyMulCells (orZero (l.any (fun x => x.AmountUSD.isSome)) r.AmountUSD)
        ((orZero (l.any (fun x => (safe_float x.base.base.base.Probability).isSome))
          (safe_float r.base.base.base.Probability)).map (fun p => p / 100)) := rfl
  rw [hA, hP, hE]
  rcases hAv : r.AmountUSD with _ | a <;>
    rcases hPv : safe_float r.base.base.base.Probability with _ | p <;>
    rcases ham : l.any (fun x => x.AmountUSD.isSome) with _ | _ <;>
    rcases hpm : l.any (fun x => (safe_float x.base.base.base.Probability).isSome) with _ | _ <;>
    rw [ham] at hamiff <;> rw [hpm] at hpmiff <;>
    simp_all [orZero, pyMulCells]

/-- Witness for the amended Claim C8 at the two-row frame: the JPY row's
expected revenue is `NaN` (null), while the EUR row follows the product
formula, 108 × (50/100) = 54. -/
theorem expected_revenue_amended_witness :
    (computeMetricsRow true true c8RowJpy).expected_revenue_usd = none ∧
    (computeMetricsRow true true c8RowEur).expected_revenue_usd =
      some ((108 : ℚ) * ((50 : ℚ) / 100)) := by
  have hl : compute_metrics [c8RowEur, c8RowJpy] =
      [computeMetricsRow true true c8RowEur, computeMetricsRow true true c8RowJpy] := by
    with_unfolding_all rfl
  have hJ := expected_revenue_amended [c8RowEur, c8RowJpy]
    (computeMetricsRow true true c8RowJpy)
    (by rw [hl]; exact List.mem_cons_of_mem _ (List.mem_cons_self _ _))
  have hE := expected_revenue_amended [c8RowEur, c8RowJpy]
    (computeMetricsRow true true c8RowEur)
    (by rw [hl]; exact List.mem_cons_self _ _)
  refine ⟨hJ.1.mpr (Or.inl ⟨rfl, ⟨c8RowEur, List.mem_cons_self _ _, by decide⟩⟩), ?_⟩
  exact hE.2.1 108 50 rfl (by with_unfolding_all decide)

/-! ## Claim C10 — USD rows still get an FX lookup and a MISSING_FX anomaly -/

/-- Opportunity row in USD with a non-null amount. -/
def c10Opp : OppRow :=
  { Id := "0101", AccountId := "A1", Name := "Deal10", StageName := "Commit - Won",
    Amount := "100", CurrencyIsoCode := "USD", Probability := "50",
    CloseDate := some 5, CreatedDate := some 1, LastModifiedDate := some 2,
    OwnerEmail := "o@x.com", Phone := "+15550001234", IsWon := "false", IsClosed := "false" }

/-- The enriched form of `c10Opp` as it reaches `apply_fx`. -/
def c10Row : EnrichedRow := ⟨⟨c10Opp, some "Commit"⟩, some "Acme", some "Tech", some "own1"⟩

/-- Claim C10: with currency "USD", a non-null amount, and an FX table without
any "USD" row, `apply_fx` still performs the lookup (yielding a null
`fx_rate_used`), sets `AmountUSD` to the amount — and `anomaly_rules` then
emits a MISSING_FX anomaly for the opportunity because its currency is
non-blank and the looked-up rate is null. -/
theorem usd_row_missing_fx_anomaly :
    apply_fx [c10Row] [⟨"EUR", 0, 2⟩] = Except.ok [⟨c10Row, none, some 100⟩] ∧
    (⟨"0101", "MISSING_FX", "FX rate missing for currency/date"⟩ : Anomaly) ∈
      anomaly_rules 100 (sanitize_pii (compute_metrics [⟨c10Row, none, some 100⟩])) := by
  refine ⟨by with_unfolding_all decide, by with_unfolding_all decide⟩

/-! ## Claim C7 — determinism and canonical sort order -/

/-- A fully-enriched metric row with close date 10, used to show the anomaly
output depends on the evaluation date. -/
def c7Metric : MetricRow :=
  { Id := "0071", AccountId := "A1", Name := "Deal7", StageName := "Commit - Won",
    StageStd := some "Commit", AccountName := some "Acme", AccountIndustry := some "Tech",
    OwnerId := some "o1", Amount := some 100, CurrencyIsoCode := "EUR",
    Probability := some 50, CloseDate := some 10, CreatedDate := some 1,
    LastModifiedDate := some 2, OwnerEmail := "o@x.com", Phone := "+15550001234",
    IsWon := "false", IsClosed := "false", fx_rate_used := some 1,
    AmountUSD := some 100, expected_revenue_usd := some 50, sales_cycle_days := some 9,
    is_won := false, is_lost := false }

/-- The sanitized form of `c7Metric`. -/
def c7Full : FullRow := ⟨c7Metric, none, some "+15550001234"⟩

/-- Claim C7 counterexample: `anomaly_rules` reads the wall clock
(`pd.Timestamp.now().normalize()`), so the same input produces different anomaly
output when the run date moves from day 8 to day 9 across a close date of 10
(the FUTURE_CLOSE rule flips). Two runs of transform-plus-anomaly-detection are
therefore not byte-for-byte identical in general. -/
theorem anomaly_output_depends_on_run_date :
    anomaly_rules 8 [c7Full] ≠ anomaly_rules 9 [c7Full] ∧
    c7Full.base.CloseDate = some 10 := by
  refine ⟨by decide, rfl⟩

/-- Claim C7 (amended): the pipeline is a pure function of its inputs — two runs
on the same inputs agree — and the anomaly output is a pure function of the
inputs AND the current date (it is not run-date-independent, see the
counterexample); the canonical output is always sorted ascending by close date
with nulls last, then by identifier. -/
theorem canonical_sorted_and_deterministic (t : Int) :
    (∀ rows : List FullRow, (canonical_select rows).Sorted canonLE) ∧
    (∀ (opp : Table OppRow) (accts : Table AcctRow) (fx : List FxRate)
       (sm : List StageMapRow), run_pipeline opp accts fx sm = run_pipeline opp accts fx sm) ∧
    (∀ rows : List FullRow, anomaly_rules t rows = anomaly_rules t rows) :=
  ⟨fun rows => List.sorted_insertionSort canonLE (rows.map projectRow),
   fun _ _ _ _ => rfl, fun _ => rfl⟩

/-! ## String lemmas for the PII claims -/

theorem charOfNat_toNat {n : Nat} (h : n < 55296) : (Char.ofNat n).toNat = n := by
  have hv : n.isValidChar := Or.inl h
  simp [Char.ofNat, hv, Char.ofNatAux, Char.toNat, UInt32.toNat, BitVec.toNat_ofNatLt]

theorem dropWhile_all_iff {p : Char → Bool} {l : List Char} :
    (∀ x ∈ l.dropWhile p, p x = true) ↔ (∀ x ∈ l, p x = true) := by
  induction l with
  | nil => simp
  | cons a t ih =>
    by_cases h : p a = true
    · rw [List.dropWhile_cons_of_pos h]
      constructor
      · intro hall x hx
        rcases List.mem_cons.mp hx with rfl | hxt
        · exact h
        · exact ih.mp hall x hxt
      · intro hall x hx
        exact ih.mpr (fun y hy => hall y (List.mem_cons_of_mem a hy)) x hx
    · rw [List.dropWhile_cons_of_neg h]

theorem pyStrip_eq_empty_iff {s : String} :
    pyStrip s = "" ↔ ∀ c ∈ s.data, isPyWS c = true := by
  unfold pyStrip
  rw [String.ext_iff]
  show (((s.data.dropWhile isPyWS).reverse).dropWhile isPyWS).reverse = ([] : List Char) ↔ _
  rw [List.reverse_eq_nil_iff, List.dropWhile_eq_nil_iff]
  simp only [List.mem_reverse]
  exact dropWhile_all_iff

theorem isPyWS_lowerChar (c : Char) : isPyWS (lowerChar c) = isPyWS c := by
  unfold lowerChar
  by_cases h : 65 ≤ c.toNat ∧ c.toNat ≤ 90
  · rw [if_pos h]
    have h32 : (Char.ofNat (c.toNat + 32)).toNat = c.toNat + 32 := charOfNat_toNat (by omega)
    simp only [isPyWS, h32]
    rw [decide_eq_decide]
    omega
  · rw [if_neg h]

theorem allWS_pyLower (e : String) :
    (∀ c ∈ (pyLower e).data, isPyWS c = true) ↔ (∀ c ∈ e.data, isPyWS c = true) := by
  show (∀ c ∈ e.data.map lowerChar, isPyWS c = true) ↔ _
  constructor
  · intro h c hc
    have := h (lowerChar c) (List.mem_map_of_mem lowerChar hc)
    rw [isPyWS_lowerChar] at this
    exact this
  · intro h c hc
    rcases List.mem_map.mp hc with ⟨x, hx, rfl⟩
    rw [isPyWS_lowerChar]
    exact h x hx

theorem sha256hex_length (s : String) : (sha256hex s).length = 64 := by
  show (sha256hex s).data.length = 64
  simp [sha256hex, wordHex]

theorem pyStrip_ne_empty_of_mem {s : String} {c : Char} (hc : c ∈ s.data)
    (hw : isPyWS c = false) : ¬ pyStrip s = "" := by
  rw [pyStrip_eq_empty_iff]
  intro hall
  rw [hall c hc] at hw
  cases hw

/-! ## Claim C6 — email hashing -/

/-- Claim C6 counterexample: two emails differing only in surrounding whitespace
hash to DIFFERENT digests — `hash_email` lower-cases but does not strip before
hashing (`str(email).lower()`, no `.strip()`), while the claim says the digest
is taken of the lower-cased trimmed email. -/
theorem hash_email_whitespace_counterexample :
    hash_email " a@b.com" ≠ hash_email "a@b.com" ∧
    pyStrip " a@b.com" = "a@b.com" := by
  refine ⟨by decide, by decide⟩

/-- Claim C6 (amended): `owner_email_hash` is the fixed-length (64 hex digit)
SHA-256 digest of the lower-cased — but NOT whitespace-trimmed — owner email,
so emails differing only in case hash identically while surrounding whitespace
changes the digest; a null or blank email yields a null hash. -/
theorem hash_email_amended :
    (∀ e : String, hash_email e = none ↔ pyStrip e = "") ∧
    (∀ e1 e2 : String, pyLower e1 = pyLower e2 → hash_email e1 = hash_email e2) ∧
    (∀ e dg : String, hash_email e = some dg → dg.length = 64) := by
  refine ⟨fun e => ?_, fun e1 e2 hlow => ?_, fun e dg h => ?_⟩
  · by_cases h : pyStrip e = "" <;> simp [hash_email, h]
  · have hws : (pyStrip e1 = "") ↔ (pyStrip e2 = "") := by
      rw [pyStrip_eq_empty_iff, pyStrip_eq_empty_iff,
        ← allWS_pyLower e1, ← allWS_pyLower e2, hlow]
    by_cases h1 : pyStrip e1 = ""
    · rw [hash_email, hash_email, if_pos h1, if_pos (hws.mp h1)]
    · rw [hash_email, hash_email, if_neg h1, if_neg (fun hc => h1 (hws.mpr hc)), hlow]
  · rw [hash_email] at h
    by_cases hb : pyStrip e = ""
    · rw [if_pos hb] at h
      exact absurd h (by simp)
    · rw [if_neg hb] at h
      have hdg : dg = sha256hex (pyLower e) := by
        injection h with h'
        exact h'.symm
      rw [hdg]
      exact sha256hex_length _

/-- Witness for the amended Claim C6: a case-flipped email pair hashes
identically, and an all-whitespace email hashes to null. -/
theorem hash_email_amended_witness :
    hash_email "JOHN@X.COM" = hash_email "john@x.com" ∧ hash_email " " = none := by
  constructor
  · exact hash_email_amended.2.1 "JOHN@X.COM" "john@x.com" (by decide)
  · exact (hash_email_amended.1 " ").mpr (by decide)

/-! ## Claim C9 — phone normalization round-trip -/

/-- Claim C9: a phone string that is "+1" followed by exactly ten digits is
normalized back to itself: the strip keeps it non-blank, the non-digit strip
leaves eleven digits starting with "1", the leading "1" is dropped, and the
ten-digit branch re-prefixes "+1". -/
theorem normalize_phone_roundtrip (d : String) (hlen : d.length = 10)
    (hdig : ∀ c ∈ d.data, c.isDigit = true) :
    normalize_phone ("+1" ++ d) = some ("+1" ++ d) := by
  have hdata : ("+1" ++ d).data = '+' :: '1' :: d.data := by
    rw [String.data_append]
    rfl
  have hlen' : d.data.length = 10 := hlen
  have hstrip : ¬ pyStrip ("+1" ++ d) = "" := by
    apply pyStrip_ne_empty_of_mem (c := '+')
    · rw [hdata]
      exact List.mem_cons_self _ _
    · rfl
  have hfil : ("+1" ++ d).data.filter Char.isDigit = '1' :: d.data := by
    rw [hdata]
    have h1 : Char.isDigit '+' = false := rfl
    have h2 : Char.isDigit '1' = true := rfl
    simp [h1, h2, List.filter_eq_self.mpr hdig]
  unfold normalize_phone
  rw [if_neg hstrip]
  dsimp only
  rw [hfil]
  have hcond : ('1' :: d.data).take 1 = ['1'] ∧ ('1' :: d.data).length = 11 :=
    ⟨rfl, by simp [hlen']⟩
  rw [if_pos hcond]
  show (if d.data.length = 10 then some ("+1" ++ ⟨d.data⟩) else _) = _
  rw [if_pos hlen']

/-- Witness for Claim C9 at the concrete phone "+1" ++ "5550001234". -/
theorem normalize_phone_roundtrip_witness :
    normalize_phone ("+1" ++ "5550001234") = some ("+1" ++ "5550001234") :=
  normalize_phone_roundtrip "5550001234" (by decide) (by decide)

/-- Witness for the amended Claim C7 at a concrete input: the canonical
projection of a singleton row set is sorted, and anomaly detection at a fixed
evaluation date is deterministic. -/
theorem canonical_sorted_and_deterministic_witness :
    (canonical_select [c7Full]).Sorted canonLE ∧
    anomaly_rules 8 [c7Full] = anomaly_rules 8 [c7Full] :=
  ⟨(canonical_sorted_and_deterministic 8).1 [c7Full],
   (canonical_sorted_and_deterministic 8).2.2 [c7Full]⟩
